import Mathlib

/-!
Verification of the Connect-Four search engine (`agents/games_utils.py`,
`agents/agent_minimax/minimax.py`, `agents/agent_mcts/mcts.py`,
`agents/agent_random/random.py`).

The board is a 6 x 7 numpy array of `np.int8` pieces (0 = empty, 1 = PLAYER1,
2 = PLAYER2); we embed it as a list of 6 rows, each a list of 7 integers.
Row 0 is the bottom of the board, exactly as in the source.
-/

set_option maxRecDepth 20000

/-- A board: list of rows (row 0 at the bottom), each row a list of cells.
Cell values: 0 = NO_PLAYER, 1 = PLAYER1, 2 = PLAYER2 (`np.int8` values). -/
abbrev Board := List (List Int)

namespace C4Game

def NO_PLAYER : Int := 0

def PLAYER1 : Int := 1

def PLAYER2 : Int := 2

def NB_ROWS : Nat := 6

def NB_COLS : Nat := 7

def TOP_BOARD : Nat := NB_ROWS - 1

def CONNECT_N : Nat := 4

/-- Reading `board[r][c]`; out-of-shape reads default to 0 (never hit on the
6 x 7 boards the program builds). -/
def cell (board : Board) (r c : Nat) : Int := (board.getD r []).getD c 0

/-- Writing `board[r][c] = v` (functionally). -/
def boardSet (board : Board) (r c : Nat) (v : Int) : Board :=
  List.modify (fun row => row.set c v) r board

/-- `games_utils.initialize_game_state`: a 6 x 7 array filled with NO_PLAYER. -/
def initialize_game_state : Board :=
  List.replicate 6 (List.replicate 7 (0 : Int))

/-- `GameState` enum from `games_utils.py`. -/
inductive GameState where
  | IS_WIN
  | IS_DRAW
  | STILL_PLAYING
deriving DecidableEq, Repr

/-- `games_utils.check_lines`: rows 0..5, cols 0..3, four consecutive cells
`board[row][col+incr]` equal to `player`.  The source's flag-and-break loop is
an exists/forall over the same index ranges. -/
def check_lines (board : Board) (player : Int) : Bool :=
  (List.range NB_ROWS).any fun row =>
    (List.range (NB_COLS - (CONNECT_N - 1))).any fun col =>
      (List.range CONNECT_N).all fun incr =>
        cell board row (col + incr) == player

/-- `games_utils.check_columns`: rows 0..2, cols 0..6, four consecutive cells
`board[row+incr][col]` equal to `player`. -/
def check_columns (board : Board) (player : Int) : Bool :=
  (List.range (NB_ROWS - (CONNECT_N - 1))).any fun row =>
    (List.range NB_COLS).any fun col =>
      (List.range CONNECT_N).all fun incr =>
        cell board (row + incr) col == player

/-- `games_utils.check_diagonals`: rows 0..2, cols 0..3, four consecutive
cells `board[row+incr][col+incr]` equal to `player`. -/
def check_diagonals (board : Board) (player : Int) : Bool :=
  (List.range (NB_ROWS - (CONNECT_N - 1))).any fun row =>
    (List.range (NB_COLS - (CONNECT_N - 1))).any fun col =>
      (List.range CONNECT_N).all fun incr =>
        cell board (row + incr) (col + incr) == player

/-- `np.fliplr`: reverse every row (flip along the column axis). -/
def fliplr (board : Board) : Board := board.map List.reverse

/-- `games_utils.connected_four`: lines, columns, ascending diagonals, or
descending diagonals (diagonals of the left-right flipped board). -/
def connected_four (board : Board) (player : Int) : Bool :=
  check_lines board player || check_columns board player ||
    check_diagonals board player || check_diagonals (fliplr board) player

/-- `games_utils.check_board_full`: `(board != NO_PLAYER).all()`. -/
def check_board_full (board : Board) : Bool :=
  board.all fun row => row.all fun x => x != 0

/-- `games_utils.other_player`. -/
def other_player (curr_player : Int) : Int :=
  if curr_player = PLAYER2 then PLAYER1 else PLAYER2

/-- `games_utils.check_end_state`: WIN if `player` has a connect four, else
DRAW if the board is full, else STILL_PLAYING. -/
def check_end_state (board : Board) (player : Int) : GameState :=
  if connected_four board player then GameState.IS_WIN
  else if check_board_full board then GameState.IS_DRAW
  else GameState.STILL_PLAYING

/-- `agent_random.legal_actions`: `np.argwhere(board[-1, :] == NO_PLAYER)`,
i.e. the ascending list of columns whose top (row 5) cell is empty. -/
def legal_actions (board : Board) : List Nat :=
  (List.range NB_COLS).filter fun c => cell board TOP_BOARD c == 0

/-- `games_utils.apply_player_action`.  Returns `none` where the source
raises (`ValueError` on `action >= NB_COLS` or an occupied top cell,
numpy `IndexError` on an index below `-NB_COLS`).  A negative `action`
in `-7..-1` wraps around to column `action + 7`, exactly as numpy indexing
does in the source; the lowest open row is the minimum index of the empty
cells of the column, and the piece is written into a fresh copy of the
board. -/
def apply_player_action (board : Board) (action : Int) (player : Int) :
    Option Board :=
  if (NB_COLS : Int) ≤ action then none
  else
    let idx : Int := if action < 0 then action + NB_COLS else action
    if idx < 0 then none
    else
      let j : Nat := idx.toNat
      if cell board TOP_BOARD j != 0 then none
      else
        match ((List.range NB_ROWS).filter fun r => cell board r j == 0).min? with
        | none => none
        | some open_row => some (boardSet board open_row j player)

/-- Boards of the real shape: 6 rows of 7 cells, every cell 0, 1 or 2. -/
def validBoard (board : Board) : Prop :=
  board.length = 6 ∧ ∀ row ∈ board, row.length = 7 ∧
    ∀ x ∈ row, x = 0 ∨ x = 1 ∨ x = 2

instance (board : Board) : Decidable (validBoard board) := by
  unfold validBoard; infer_instance

/-- Boards reachable in legal play: starting from the empty board with
PLAYER1 to move, players alternate, each move is drawn from `legal_actions`
and applied with `apply_player_action`, and moves are only made while the
game is still running for both players.  The second component is the player
to move. -/
inductive Reachable : Board → Int → Prop where
  | init : Reachable initialize_game_state PLAYER1
  | step (b : Board) (p : Int) (a : Nat) (b' : Board) :
      Reachable b p →
      check_end_state b PLAYER1 = GameState.STILL_PLAYING →
      check_end_state b PLAYER2 = GameState.STILL_PLAYING →
      a ∈ legal_actions b →
      apply_player_action b (a : Int) p = some b' →
      Reachable b' (other_player p)

end C4Game

namespace C4Game

/-! ## Negamax searcher (`agent_minimax/minimax.py`) -/

def DEPTH : Nat := 4

def ALPHA : Int := -100

def BETA : Int := 100

def STILL_PLAYING_NEGAMAX : Int := 101

/-- `minimax.heuristic`.  `end_state` is the value `negamax` computes before
the cutoff, namely `check_end_state(current_board, other_player)` for the
opponent of `player`; `depth` is the remaining depth at the cutoff. -/
def heuristic (current_board : Board) (player : Int) (depth : Nat)
    (end_state : GameState) : Int :=
  let other_pl := if player = PLAYER2 then PLAYER1 else PLAYER2
  let end_state_other := check_end_state current_board other_pl
  if end_state = GameState.IS_WIN then BETA * ((depth : Int) + 1)
  else if end_state_other = GameState.IS_WIN then ALPHA * ((depth : Int) + 1)
  else if end_state = GameState.IS_DRAW then (0 : Int)
  else STILL_PLAYING_NEGAMAX * ((depth : Int) + 1)

/-- `minimax.reorder_columns`: the source's loop
`for i in range(middle): append cols[middle-i]; if size odd or i != middle-1:
append cols[middle+i+1]`, then `append cols[0]`. -/
def reorder_columns (cols : List Nat) : List Nat :=
  let size := cols.length
  let middle := size / 2
  let reordered :=
    (List.range middle).foldl
      (fun acc i =>
        let acc1 := acc ++ [cols.getD (middle - i) 0]
        if size % 2 ≠ 0 ∨ i ≠ middle - 1 then
          acc1 ++ [cols.getD (middle + (i + 1)) 0]
        else acc1)
      []
  reordered ++ [cols.getD 0 0]

/-- The reordering rule exactly as the spec words it (for the refinement
comparison with `reorder_columns`): for `i` in `0..m` (i.e. `range m`):
emit `cols[m-i]`; then, unless `n` is even and `i = m-1`, emit
`cols[m+i+1]`; finally append `cols[0]`. -/
def reorder_rule_of_spec (cols : List Nat) : List Nat :=
  let n := cols.length
  let m := n / 2
  ((List.range m).map fun i =>
      if n % 2 = 0 ∧ i = m - 1 then [cols.getD (m - i) 0]
      else [cols.getD (m - i) 0, cols.getD (m + (i + 1)) 0]).join
    ++ [cols.getD 0 0]

/-- A fold that only ever appends is the initial list followed by the
concatenation of the appended chunks. -/
theorem foldl_append_chunks {α : Type} (f : Nat → List α) (p : Nat → Prop)
    [DecidablePred p] (g : Nat → List α) :
    ∀ (l : List Nat) (init : List α),
      l.foldl
        (fun acc i =>
          let acc1 := acc ++ f i
          if p i then acc1 ++ g i else acc1) init =
        init ++ (l.map fun i => if p i then f i ++ g i else f i).join := by
  intro l
  induction l with
  | nil => intro init; simp
  | cons a t ih =>
      intro init
      simp only [List.foldl_cons, List.map_cons, List.join]
      rw [ih]
      by_cases h : p a <;> simp [h]

/-- C3: for every list of legal columns the Negamax move reordering agrees
with the spec's middle-out emission rule, and on `[0,...,6]`, `[3,5]` and
`[0]` it returns `[3,4,2,5,1,6,0]`, `[5,3]` and `[0]` respectively. -/
theorem C3_reorder_columns_spec :
    (∀ cols : List Nat, reorder_columns cols = reorder_rule_of_spec cols) ∧
    reorder_columns [0, 1, 2, 3, 4, 5, 6] = [3, 4, 2, 5, 1, 6, 0] ∧
    reorder_columns [3, 5] = [5, 3] ∧
    reorder_columns [0] = [0] := by
  refine ⟨fun cols => ?_, by decide, by decide, by decide⟩
  show
    (List.range (cols.length / 2)).foldl
        (fun acc i =>
          let acc1 := acc ++ [cols.getD (cols.length / 2 - i) 0]
          if cols.length % 2 ≠ 0 ∨ i ≠ cols.length / 2 - 1 then
            acc1 ++ [cols.getD (cols.length / 2 + (i + 1)) 0]
          else acc1)
        [] ++ [cols.getD 0 0] =
      ((List.range (cols.length / 2)).map fun i =>
          if cols.length % 2 = 0 ∧ i = cols.length / 2 - 1 then
            [cols.getD (cols.length / 2 - i) 0]
          else
            [cols.getD (cols.length / 2 - i) 0,
              cols.getD (cols.length / 2 + (i + 1)) 0]).join
        ++ [cols.getD 0 0]
  rw [foldl_append_chunks (fun i => [cols.getD (cols.length / 2 - i) 0])
    (fun i => cols.length % 2 ≠ 0 ∨ i ≠ cols.length / 2 - 1)
    (fun i => [cols.getD (cols.length / 2 + (i + 1)) 0])]
  simp only [List.nil_append]
  congr 2
  apply List.map_congr_left
  intro i _
  by_cases h : cols.length % 2 = 0 ∧ i = cols.length / 2 - 1
  · simp [h.1, h.2]
  · have h2 : cols.length % 2 ≠ 0 ∨ i ≠ cols.length / 2 - 1 := by tauto
    simp [h2, h]

end C4Game

namespace C4Game

/-- C1 (amended): at a Negamax cutoff — where `end_state` is
`check_end_state(current_board, other_player)`, computed for the OPPONENT of
`player` — the heuristic returns `+BETA*(depth+1)` when the opponent of
`player` has a connect four, `0` when the board is full and the opponent has
none, and `STILL_PLAYING_NEGAMAX*(depth+1)` otherwise (in particular also
when `player` itself has a connect four); the `ALPHA*(depth+1)` branch is
unreachable at a Negamax cutoff, because `heuristic` recomputes the very
same opponent end state for it. -/
theorem C1_heuristic_at_negamax_cutoff (b : Board) (player : Int) (depth : Nat) :
    heuristic b player depth
        (check_end_state b (if player = PLAYER2 then PLAYER1 else PLAYER2)) =
      if connected_four b (if player = PLAYER2 then PLAYER1 else PLAYER2) then
        BETA * ((depth : Int) + 1)
      else if check_board_full b then 0
      else STILL_PLAYING_NEGAMAX * ((depth : Int) + 1) := by
  unfold heuristic check_end_state
  by_cases hcf : connected_four b (if player = PLAYER2 then PLAYER1 else PLAYER2) <;>
    by_cases hf : check_board_full b <;>
      simp [hcf, hf]

/-- The boards of a 7-move legal game: PLAYER1 plays columns 0,1,2,3 and
PLAYER2 plays columns 4,5,6, ending with a horizontal connect four for
PLAYER1 on the bottom row. -/
def cexB1 : Board := [[1,0,0,0,0,0,0],[0,0,0,0,0,0,0],[0,0,0,0,0,0,0],
  [0,0,0,0,0,0,0],[0,0,0,0,0,0,0],[0,0,0,0,0,0,0]]

def cexB2 : Board := [[1,0,0,0,2,0,0],[0,0,0,0,0,0,0],[0,0,0,0,0,0,0],
  [0,0,0,0,0,0,0],[0,0,0,0,0,0,0],[0,0,0,0,0,0,0]]

def cexB3 : Board := [[1,1,0,0,2,0,0],[0,0,0,0,0,0,0],[0,0,0,0,0,0,0],
  [0,0,0,0,0,0,0],[0,0,0,0,0,0,0],[0,0,0,0,0,0,0]]

def cexB4 : Board := [[1,1,0,0,2,2,0],[0,0,0,0,0,0,0],[0,0,0,0,0,0,0],
  [0,0,0,0,0,0,0],[0,0,0,0,0,0,0],[0,0,0,0,0,0,0]]

def cexB5 : Board := [[1,1,1,0,2,2,0],[0,0,0,0,0,0,0],[0,0,0,0,0,0,0],
  [0,0,0,0,0,0,0],[0,0,0,0,0,0,0],[0,0,0,0,0,0,0]]

def cexB6 : Board := [[1,1,1,0,2,2,2],[0,0,0,0,0,0,0],[0,0,0,0,0,0,0],
  [0,0,0,0,0,0,0],[0,0,0,0,0,0,0],[0,0,0,0,0,0,0]]

/-- The final board of that game: PLAYER1 has just won with column 3. -/
def cexBoard : Board := [[1,1,1,1,2,2,2],[0,0,0,0,0,0,0],[0,0,0,0,0,0,0],
  [0,0,0,0,0,0,0],[0,0,0,0,0,0,0],[0,0,0,0,0,0,0]]

theorem cexBoard_reachable : Reachable cexBoard PLAYER2 := by
  have h0 := Reachable.init
  have h1 := Reachable.step _ _ 0 cexB1 h0 (by decide) (by decide) (by decide)
    (by decide)
  have h2 := Reachable.step _ _ 4 cexB2 h1 (by decide) (by decide) (by decide)
    (by decide)
  have h3 := Reachable.step _ _ 1 cexB3 h2 (by decide) (by decide) (by decide)
    (by decide)
  have h4 := Reachable.step _ _ 5 cexB4 h3 (by decide) (by decide) (by decide)
    (by decide)
  have h5 := Reachable.step _ _ 2 cexB5 h4 (by decide) (by decide) (by decide)
    (by decide)
  have h6 := Reachable.step _ _ 6 cexB6 h5 (by decide) (by decide) (by decide)
    (by decide)
  have h7 := Reachable.step _ _ 3 cexBoard h6 (by decide) (by decide) (by decide)
    (by decide)
  exact h7

/-- C1 (counterexample): `cexBoard` is reachable in legal play, exactly one
player (PLAYER1) has a connect four on it, and at a Negamax cutoff for
`player = PLAYER2` at the default depth the heuristic returns
`+BETA*(depth+1) = 500` — a positive value — although PLAYER1 is the
OPPONENT of `player`, where the claim demands `ALPHA*(depth+1) = -500`. -/
theorem C1_claim_counterexample :
    Reachable cexBoard PLAYER2 ∧
    connected_four cexBoard PLAYER1 = true ∧
    connected_four cexBoard PLAYER2 = false ∧
    heuristic cexBoard PLAYER2 DEPTH
        (check_end_state cexBoard
          (if PLAYER2 = PLAYER2 then PLAYER1 else PLAYER2)) = 500 ∧
    ALPHA * ((DEPTH : Int) + 1) = -500 ∧
    (500 : Int) ≠ -500 :=
  ⟨cexBoard_reachable, by decide, by decide, by decide, by decide, by decide⟩

/-- C2: `apply_player_action` does NOT fail on the out-of-range column `-1`:
on the empty board it silently places the piece in row 0 of column 6
(numpy's negative-index wrap-around), although both the claim and the
function's own docstring ("Raises a ValueError if action is not a legal
move") require an illegal-move failure for a column outside `0..6`. -/
theorem C2_negative_column_not_rejected :
    apply_player_action initialize_game_state (-1) PLAYER1 =
      some [[0,0,0,0,0,0,1],[0,0,0,0,0,0,0],[0,0,0,0,0,0,0],
        [0,0,0,0,0,0,0],[0,0,0,0,0,0,0],[0,0,0,0,0,0,0]] ∧
    apply_player_action initialize_game_state (-1) PLAYER1 ≠ none := by
  refine ⟨by decide, ?_⟩
  intro h
  simp [show apply_player_action initialize_game_state (-1) PLAYER1 =
    some [[0,0,0,0,0,0,1],[0,0,0,0,0,0,0],[0,0,0,0,0,0,0],
      [0,0,0,0,0,0,0],[0,0,0,0,0,0,0],[0,0,0,0,0,0,0]] from by decide] at h

end C4Game

namespace C4Game

/-! ## MCTS tree (`agent_mcts/mcts.py`) -/

/-- The counters of one MCTS `Node` that `backpropagation` touches. -/
structure NodeStats where
  nb_visits : Nat
  win_count : Nat
  loss_count : Nat
deriving DecidableEq, Repr

/-- The per-node update of `Node.backpropagation`:
`nb_visits += 1; if result == -1: loss_count += 1 elif result == 1:
win_count += 1`. -/
def backpropUpdate (n : NodeStats) (result : Int) : NodeStats :=
  { nb_visits := n.nb_visits + 1
    loss_count := if result = -1 then n.loss_count + 1 else n.loss_count
    win_count :=
      if result = -1 then n.win_count
      else if result = 1 then n.win_count + 1 else n.win_count }

/-- `Node.backpropagation`, embedded along the parent chain: the list holds
the node the result arrives at first, then its parent, and so on up to the
root (the last element).  Each node is updated and the sign-flipped result
`result * (-1)` is passed to its parent, stopping at the root. -/
def backpropagation : List NodeStats → Int → List NodeStats
  | [], _ => []
  | n :: ancestors, result =>
      backpropUpdate n result :: backpropagation ancestors (result * (-1))

theorem backpropagation_length (chain : List NodeStats) (result : Int) :
    (backpropagation chain result).length = chain.length := by
  induction chain generalizing result with
  | nil => rfl
  | cons n t ih => simp [backpropagation, ih]

/-- The node at distance `k` from the start of the chain receives the
sign-flipped result `result * (-1)^k`. -/
theorem backpropagation_getD (chain : List NodeStats) (result : Int) :
    ∀ k, k < chain.length →
      (backpropagation chain result).getD k ⟨0, 0, 0⟩ =
        backpropUpdate (chain.getD k ⟨0, 0, 0⟩) (result * (-1) ^ k) := by
  induction chain generalizing result with
  | nil => intro k hk; simp at hk
  | cons n t ih =>
      intro k hk
      cases k with
      | zero => simp [backpropagation]
      | succ m =>
          have hm : m < t.length := by simpa using hk
          have := ih (result * (-1)) m hm
          simp only [backpropagation, List.getD_cons_succ, this]
          ring_nf

/-- C4: along any parent chain ending at the root, `backpropagation`
increments every node's visit count by exactly 1 (in particular the root's,
the chain's last element), increments the node's win count exactly when the
signed result it receives (`result * (-1)^k` at distance `k`) is `+1` and
its loss count exactly when that signed result is `-1` — a draw result `0`
changes neither — and never increments both counters of one node in the same
cycle; the chain's length is preserved. -/
theorem C4_backpropagation_invariant (chain : List NodeStats) (result : Int) :
    (backpropagation chain result).length = chain.length ∧
    ∀ k, k < chain.length →
      ((backpropagation chain result).getD k ⟨0, 0, 0⟩).nb_visits =
          (chain.getD k ⟨0, 0, 0⟩).nb_visits + 1 ∧
      ((backpropagation chain result).getD k ⟨0, 0, 0⟩).win_count =
          (if result * (-1) ^ k = 1 then (chain.getD k ⟨0, 0, 0⟩).win_count + 1
           else (chain.getD k ⟨0, 0, 0⟩).win_count) ∧
      ((backpropagation chain result).getD k ⟨0, 0, 0⟩).loss_count =
          (if result * (-1) ^ k = -1 then (chain.getD k ⟨0, 0, 0⟩).loss_count + 1
           else (chain.getD k ⟨0, 0, 0⟩).loss_count) ∧
      ¬(((backpropagation chain result).getD k ⟨0, 0, 0⟩).win_count ≠
            (chain.getD k ⟨0, 0, 0⟩).win_count ∧
        ((backpropagation chain result).getD k ⟨0, 0, 0⟩).loss_count ≠
            (chain.getD k ⟨0, 0, 0⟩).loss_count) := by
  refine ⟨backpropagation_length chain result, fun k hk => ?_⟩
  rw [backpropagation_getD chain result k hk]
  set r := result * (-1) ^ k with hr
  unfold backpropUpdate
  by_cases h1 : r = -1
  · have h2 : r ≠ 1 := by rw [h1]; decide
    simp [h1, h2]
  · by_cases h2 : r = 1
    · simp [h1, h2]
    · simp [h1, h2]

/-- C4 (witness): the second node of a concrete two-node chain, receiving
result `+1` at the head hence `-1` itself, gains one visit and one loss. -/
theorem C4_backpropagation_invariant_witness :
    ((backpropagation [⟨0, 0, 0⟩, ⟨3, 2, 1⟩] 1).getD 1 ⟨0, 0, 0⟩).nb_visits =
        (([⟨0, 0, 0⟩, ⟨3, 2, 1⟩] : List NodeStats).getD 1 ⟨0, 0, 0⟩).nb_visits + 1 ∧
    ((backpropagation [⟨0, 0, 0⟩, ⟨3, 2, 1⟩] 1).getD 1 ⟨0, 0, 0⟩).loss_count =
        (if (1 : Int) * (-1) ^ 1 = -1 then
          (([⟨0, 0, 0⟩, ⟨3, 2, 1⟩] : List NodeStats).getD 1 ⟨0, 0, 0⟩).loss_count + 1
         else
          (([⟨0, 0, 0⟩, ⟨3, 2, 1⟩] : List NodeStats).getD 1 ⟨0, 0, 0⟩).loss_count) :=
  ⟨((C4_backpropagation_invariant [⟨0, 0, 0⟩, ⟨3, 2, 1⟩] 1).2 1 (by decide)).1,
   ((C4_backpropagation_invariant [⟨0, 0, 0⟩, ⟨3, 2, 1⟩] 1).2 1 (by decide)).2.2.1⟩

end C4Game

namespace C4Game

/-- The action bookkeeping of one MCTS `Node`: its (fixed) board, the
`parent_action` of each child in creation order, and the stored
`tried_actions` / `untried_actions` lists. -/
structure NodeActions where
  board : Board
  childActions : List Nat
  tried_actions : List Nat
  untried_actions : List Nat

/-- `Node.__init__`: `untried_actions = legal_actions(board)`,
`tried_actions = []`, no children. -/
def mkMctsNode (b : Board) : NodeActions :=
  { board := b, childActions := [], tried_actions := [],
    untried_actions := legal_actions b }

/-- `Node.update_actions`: `tried_actions` is recomputed as the children's
`parent_action`s, and `untried_actions` as the legal actions not in
`tried_actions`. -/
def update_actions (n : NodeActions) : NodeActions :=
  { n with tried_actions := n.childActions,
           untried_actions :=
             (legal_actions n.board).filter fun action =>
               decide (action ∉ n.childActions) }

/-- `Node.expand`: `get_random_untried_action` first calls `update_actions`
and then draws one untried action (the source draws it uniformly at random;
here the random index is abstracted as `i % len`); a child with that
`parent_action` is appended and `update_actions` runs again.  On an empty
untried list the source's `np.random.randint(0, 0)` raises, which never
happens in the search loop; the embedding leaves the node unchanged there. -/
def expand (n : NodeActions) (i : Nat) : NodeActions :=
  if (update_actions n).untried_actions = [] then update_actions n
  else
    update_actions
      { update_actions n with
        childActions := (update_actions n).childActions ++
          [(update_actions n).untried_actions.getD
            (i % (update_actions n).untried_actions.length) 0] }

/-- Any node state produced during a search: constructed fresh on `b`, then
expanded some number of times (with arbitrary random draws). -/
def mctsNodeState (b : Board) (choices : List Nat) : NodeActions :=
  choices.foldl expand (mkMctsNode b)

/-- The inductive invariant tying the stored lists to the children. -/
def nodeInv (b : Board) (n : NodeActions) : Prop :=
  n.board = b ∧ n.childActions.Nodup ∧
  (∀ a ∈ n.childActions, a ∈ legal_actions b) ∧
  n.tried_actions = n.childActions ∧
  n.untried_actions =
    (legal_actions b).filter fun action => decide (action ∉ n.childActions)

theorem legal_actions_nodup (b : Board) : (legal_actions b).Nodup :=
  (List.nodup_range _).filter _

theorem nodeInv_update (b : Board) (n : NodeActions) (hb : n.board = b)
    (hnd : n.childActions.Nodup)
    (hsub : ∀ a ∈ n.childActions, a ∈ legal_actions b) :
    nodeInv b (update_actions n) := by
  subst hb
  exact ⟨rfl, hnd, hsub, rfl, rfl⟩

theorem nodeInv_mk (b : Board) : nodeInv b (mkMctsNode b) := by
  refine ⟨rfl, List.nodup_nil, ?_, rfl, ?_⟩
  · intro a ha
    simp [mkMctsNode] at ha
  · show legal_actions b = _
    simp [mkMctsNode]

theorem getD_mod_mem (l : List Nat) (h : ¬l = []) (i : Nat) :
    l.getD (i % l.length) 0 ∈ l := by
  have hlen : i % l.length < l.length :=
    Nat.mod_lt _ (List.length_pos.mpr h)
  rw [List.getD_eq_getElem l 0 hlen]
  exact List.getElem_mem hlen

theorem nodeInv_expand (b : Board) (n : NodeActions) (i : Nat)
    (h : nodeInv b n) : nodeInv b (expand n i) := by
  obtain ⟨hb0, hnd0, hsub0, -, -⟩ := h
  obtain ⟨hb, hnd, hsub, htr, hun⟩ := nodeInv_update b n hb0 hnd0 hsub0
  unfold expand
  by_cases he : (update_actions n).untried_actions = []
  · rw [if_pos he]
    exact nodeInv_update b n hb0 hnd0 hsub0
  · rw [if_neg he]
    have hau : (update_actions n).untried_actions.getD
        (i % (update_actions n).untried_actions.length) 0 ∈
        (update_actions n).untried_actions :=
      getD_mod_mem _ he i
    rw [hun, List.mem_filter, decide_eq_true_eq] at hau
    rw [← hun] at hau
    obtain ⟨hleg, hnotin⟩ := hau
    apply nodeInv_update b
    · exact hb
    · refine List.Nodup.append hnd (List.nodup_singleton _) ?_
      intro x hx hx'
      rw [List.mem_singleton] at hx'
      subst hx'
      exact hnotin hx
    · intro a ha
      rcases List.mem_append.mp ha with ha | ha
      · exact hsub a ha
      · rw [List.mem_singleton] at ha
        rw [ha]
        exact hleg

theorem nodeInv_state (b : Board) (choices : List Nat) :
    nodeInv b (mctsNodeState b choices) := by
  unfold mctsNodeState
  have main : ∀ (cs : List Nat) (n : NodeActions), nodeInv b n →
      nodeInv b (cs.foldl expand n) := by
    intro cs
    induction cs with
    | nil => intro n h; exact h
    | cons c t ih => intro n h; exact ih _ (nodeInv_expand b n c h)
  exact main choices _ (nodeInv_mk b)

theorem filter_partition_length (full tried : List Nat)
    (hfull : full.Nodup) (htried : tried.Nodup)
    (hsub : ∀ a ∈ tried, a ∈ full) :
    tried.length +
      (full.filter fun a => decide (a ∉ tried)).length = full.length := by
  have hperm :
      List.Perm full (tried ++ (full.filter fun a => decide (a ∉ tried))) := by
    rw [List.perm_ext_iff_of_nodup hfull]
    · intro a
      simp only [List.mem_append, List.mem_filter, decide_eq_true_eq]
      constructor
      · intro ha
        by_cases h : a ∈ tried
        · exact Or.inl h
        · exact Or.inr ⟨ha, h⟩
      · rintro (h | ⟨h, -⟩)
        · exact hsub a h
        · exact h
    · rw [List.nodup_append]
      refine ⟨htried, hfull.filter _, ?_⟩
      intro a ha hb
      rw [List.mem_filter, decide_eq_true_eq] at hb
      exact hb.2 ha
  have hlen := hperm.length_eq
  simpa using hlen.symm

/-- C5: for every node state arising during an MCTS search — freshly
constructed and then expanded any number of times — `tried_actions` and
`untried_actions` are disjoint and their lengths sum to the number of legal
columns of the node's board: they partition the legal actions. -/
theorem C5_tried_untried_partition (b : Board) (choices : List Nat) :
    (∀ a ∈ (mctsNodeState b choices).tried_actions,
        a ∉ (mctsNodeState b choices).untried_actions) ∧
    (mctsNodeState b choices).tried_actions.length +
        (mctsNodeState b choices).untried_actions.length =
      (legal_actions (mctsNodeState b choices).board).length ∧
    ∀ a, a ∈ legal_actions (mctsNodeState b choices).board ↔
        a ∈ (mctsNodeState b choices).tried_actions ∨
          a ∈ (mctsNodeState b choices).untried_actions := by
  obtain ⟨hb, hnd, hsub, htr, hun⟩ := nodeInv_state b choices
  rw [hb, htr, hun]
  refine ⟨?_, ?_, ?_⟩
  · intro a ha hmem
    rw [List.mem_filter, decide_eq_true_eq] at hmem
    exact hmem.2 ha
  · exact filter_partition_length _ _ (legal_actions_nodup b) hnd hsub
  · intro a
    constructor
    · intro ha
      by_cases h : a ∈ (mctsNodeState b choices).childActions
      · exact Or.inl h
      · refine Or.inr ?_
        rw [List.mem_filter, decide_eq_true_eq]
        exact ⟨ha, h⟩
    · rintro (h | h)
      · exact hsub a h
      · rw [List.mem_filter] at h
        exact h.1

end C4Game

namespace C4Game

/-- `Node.ucb1_win`: raises `ValueError` (here `none`) when the node or its
parent is unvisited; otherwise `win_count/nb_visits +
sqrt(2) * sqrt(ln(parent.nb_visits) / nb_visits)` (the stored
`exploration_param` is `math.sqrt(2)`). -/
noncomputable def ucb1_win (win_count nb_visits parent_nb_visits : Nat) :
    Option ℝ :=
  if nb_visits = 0 ∨ parent_nb_visits = 0 then none
  else
    some ((win_count : ℝ) / (nb_visits : ℝ) +
      Real.sqrt 2 * Real.sqrt (Real.log (parent_nb_visits : ℝ) / (nb_visits : ℝ)))

/-- `Node.ucb1_loss`: the same formula with `loss_count` in place of
`win_count`. -/
noncomputable def ucb1_loss (loss_count nb_visits parent_nb_visits : Nat) :
    Option ℝ :=
  if nb_visits = 0 ∨ parent_nb_visits = 0 then none
  else
    some ((loss_count : ℝ) / (nb_visits : ℝ) +
      Real.sqrt 2 * Real.sqrt (Real.log (parent_nb_visits : ℝ) / (nb_visits : ℝ)))

/-- C7: evaluating either UCB1 variant on a node with a parent fails exactly
when the node's visit count or the parent's visit count is 0; with both
positive it returns `count/nb_visits + sqrt(2)*sqrt(ln(parent)/nb_visits)`
without failing. -/
theorem C7_ucb1_fails_iff_unvisited
    (win_count loss_count nb_visits parent_nb_visits : Nat) :
    (ucb1_win win_count nb_visits parent_nb_visits = none ↔
      nb_visits = 0 ∨ parent_nb_visits = 0) ∧
    (ucb1_loss loss_count nb_visits parent_nb_visits = none ↔
      nb_visits = 0 ∨ parent_nb_visits = 0) ∧
    (nb_visits ≠ 0 → parent_nb_visits ≠ 0 →
      ucb1_win win_count nb_visits parent_nb_visits =
        some ((win_count : ℝ) / (nb_visits : ℝ) +
          Real.sqrt 2 *
            Real.sqrt (Real.log (parent_nb_visits : ℝ) / (nb_visits : ℝ))) ∧
      ucb1_loss loss_count nb_visits parent_nb_visits =
        some ((loss_count : ℝ) / (nb_visits : ℝ) +
          Real.sqrt 2 *
            Real.sqrt (Real.log (parent_nb_visits : ℝ) / (nb_visits : ℝ)))) := by
  unfold ucb1_win ucb1_loss
  by_cases h : nb_visits = 0 ∨ parent_nb_visits = 0
  · rw [if_pos h, if_pos h]
    refine ⟨⟨fun _ => h, fun _ => rfl⟩, ⟨fun _ => h, fun _ => rfl⟩, ?_⟩
    intro hv hp
    rcases h with h | h
    · exact absurd h hv
    · exact absurd h hp
  · rw [if_neg h, if_neg h]
    exact ⟨⟨fun hx => by simp at hx, fun hx => absurd hx h⟩,
      ⟨fun hx => by simp at hx, fun hx => absurd hx h⟩,
      fun _ _ => ⟨rfl, rfl⟩⟩

/-- C7 (witness): the reference scenario — 2 wins out of 3 visits with a
parent visited 5 times — is defined and equals the formula value. -/
theorem C7_ucb1_fails_iff_unvisited_witness :
    ucb1_win 2 3 5 =
      some ((2 : ℝ) / (3 : ℝ) +
        Real.sqrt 2 * Real.sqrt (Real.log (5 : ℝ) / (3 : ℝ))) :=
  ((C7_ucb1_fails_iff_unvisited 2 2 3 5).2.2 (by decide) (by decide)).1

end C4Game

namespace C4Game

/-- `np.argmax` over a list: index of the first maximal element.  The
accumulator carries the best (index, value) so far and the index of the
head of the remaining list. -/
def argmaxAux [LinearOrder α] : Nat × α → Nat → List α → Nat × α
  | best, _, [] => best
  | best, ci, y :: ys =>
      if best.2 < y then argmaxAux (ci, y) (ci + 1) ys
      else argmaxAux best (ci + 1) ys

def npArgmax [LinearOrder α] : List α → Nat
  | [] => 0
  | x :: xs => (argmaxAux (0, x) 1 xs).1

theorem argmaxAux_max [LinearOrder α] :
    ∀ (ys : List α) (best : Nat × α) (ci : Nat),
      best.2 ≤ (argmaxAux best ci ys).2 ∧
      ∀ y ∈ ys, y ≤ (argmaxAux best ci ys).2 := by
  intro ys
  induction ys with
  | nil => intro best ci; exact ⟨le_refl _, by simp⟩
  | cons y t ih =>
      intro best ci
      by_cases h : best.2 < y
      · simp only [argmaxAux, if_pos h]
        obtain ⟨h1, h2⟩ := ih (ci, y) (ci + 1)
        refine ⟨le_of_lt (lt_of_lt_of_le h h1), ?_⟩
        intro z hz
        rcases List.mem_cons.mp hz with hz | hz
        · rw [hz]; exact h1
        · exact h2 z hz
      · simp only [argmaxAux, if_neg h]
        obtain ⟨h1, h2⟩ := ih best (ci + 1)
        refine ⟨h1, ?_⟩
        intro z hz
        rcases List.mem_cons.mp hz with hz | hz
        · rw [hz]; exact le_trans (le_of_not_lt h) h1
        · exact h2 z hz

theorem argmaxAux_idx [LinearOrder α] :
    ∀ (ys : List α) (best : Nat × α) (ci : Nat),
      argmaxAux best ci ys = best ∨
      ∃ k, k < ys.length ∧ (argmaxAux best ci ys).1 = ci + k ∧
        (argmaxAux best ci ys).2 = ys.getD k best.2 := by
  intro ys
  induction ys with
  | nil => intro best ci; exact Or.inl rfl
  | cons y t ih =>
      intro best ci
      by_cases h : best.2 < y
      · simp only [argmaxAux, if_pos h]
        rcases ih (ci, y) (ci + 1) with heq | ⟨k, hk, hidx, hval⟩
        · refine Or.inr ⟨0, by simp, ?_, ?_⟩
          · rw [heq]; simp
          · rw [heq]; simp
        · refine Or.inr ⟨k + 1, by simpa using hk, ?_, ?_⟩
          · rw [hidx]; omega
          · rw [hval]
            have h1 := List.getD_eq_getElem t y hk
            have h2 := List.getD_eq_getElem t best.2 hk
            rw [List.getD_cons_succ, h1, h2]
      · simp only [argmaxAux, if_neg h]
        rcases ih best (ci + 1) with heq | ⟨k, hk, hidx, hval⟩
        · exact Or.inl heq
        · refine Or.inr ⟨k + 1, by simpa using hk, ?_, ?_⟩
          · rw [hidx]; omega
          · rw [hval, List.getD_cons_succ]

/-- `npArgmax` returns an in-range index of a maximal element (first
maximum, like `np.argmax`). -/
theorem npArgmax_spec [LinearOrder α] (l : List α) (hl : l ≠ []) (d : α) :
    npArgmax l < l.length ∧
    ∀ j, j < l.length → l.getD j d ≤ l.getD (npArgmax l) d := by
  obtain ⟨x, xs, rfl⟩ := List.exists_cons_of_ne_nil hl
  have hmax := argmaxAux_max xs (0, x) 1
  have hval : (x :: xs).getD (npArgmax (x :: xs)) d = (argmaxAux (0, x) 1 xs).2 ∧
      npArgmax (x :: xs) < (x :: xs).length := by
    rcases argmaxAux_idx xs (0, x) 1 with heq | ⟨k, hk, hidx, hv⟩
    · constructor
      · show (x :: xs).getD (argmaxAux (0, x) 1 xs).1 d = _
        rw [heq]; simp
      · show (argmaxAux (0, x) 1 xs).1 < _
        rw [heq]
        simp
    · constructor
      · show (x :: xs).getD (argmaxAux (0, x) 1 xs).1 d = _
        rw [hidx, hv]
        have h1 := List.getD_eq_getElem xs x hk
        have h2 := List.getD_eq_getElem xs d hk
        have : (1 : Nat) + k = k + 1 := by omega
        rw [this, List.getD_cons_succ, h1, h2]
      · show (argmaxAux (0, x) 1 xs).1 < _
        rw [hidx]
        simp only [List.length_cons]
        omega
  refine ⟨hval.2, ?_⟩
  intro j hj
  rw [hval.1]
  cases j with
  | zero => exact hmax.1
  | succ m =>
      have hm : m < xs.length := by simpa using hj
      rw [List.getD_cons_succ]
      refine hmax.2 _ ?_
      rw [List.getD_eq_getElem xs d hm]
      exact List.getElem_mem hm

/-- The per-child counters visible to the final move selection, with the
child's `parent_action`. -/
structure ChildInfo where
  win_count : Nat
  loss_count : Nat
  nb_visits : Nat
  parent_action : Int
deriving DecidableEq, Inhabited, Repr

/-- The root statistics the final selection reads: the root's own visit
count (the `parent.nb_visits` of the UCB1 formula) and its children. -/
structure RootInfo where
  nb_visits : Nat
  children : List ChildInfo
deriving DecidableEq, Inhabited, Repr

/-- The value `Node.ucb1_loss` computes for a visited child of a visited
parent: `loss_count/nb_visits + sqrt(2)*sqrt(ln(parent.nb_visits)/nb_visits)`. -/
noncomputable def ucb1_loss_of_child (c : ChildInfo) (parent_nb_visits : Nat) : ℝ :=
  (c.loss_count : ℝ) / (c.nb_visits : ℝ) +
    Real.sqrt 2 * Real.sqrt (Real.log (parent_nb_visits : ℝ) / (c.nb_visits : ℝ))

/-- `Node.best_child_alternative`:
`children[np.argmax([child.ucb1_loss() for child in children])]`. -/
noncomputable def best_child_alternative (r : RootInfo) : ChildInfo :=
  r.children.getD
    (npArgmax (r.children.map fun c => ucb1_loss_of_child c r.nb_visits))
    default

/-- `simulation_nb = 1500` in `Node.select_best_action`. -/
def simulation_nb : Nat := 1500

/-- The root statistics after the fixed budget of
select / simulate / backpropagate cycles.  One cycle reads the random
number source and mutates the tree, so it is abstracted as a function
`cycles i` from root statistics to root statistics for iteration `i`. -/
def mcts_after_search (cycles : Nat → RootInfo → RootInfo) (root : RootInfo) :
    RootInfo :=
  (List.range simulation_nb).foldl (fun s i => cycles i s) root

/-- `Node.select_best_action`: run the fixed budget of cycles, then return
`best_child_alternative().parent_action`. -/
noncomputable def select_best_action (cycles : Nat → RootInfo → RootInfo)
    (root : RootInfo) : Int :=
  (best_child_alternative (mcts_after_search cycles root)).parent_action

theorem getD_map_eq {α β : Type} [Inhabited α] (c : List α) (f : α → β)
    (j : Nat) (hj : j < c.length) (d : β) :
    (c.map f).getD j d = f (c.getD j default) := by
  have hj' : j < (c.map f).length := by simpa using hj
  rw [List.getD_eq_getElem _ d hj', List.getElem_map,
    List.getD_eq_getElem _ default hj]

/-- C6: whatever the 1500 select/simulate/backpropagate cycles do to the
tree, `select_best_action` returns the `parent_action` of a root child
whose loss-count-based UCB1 value is maximal among all the root's
children. -/
theorem C6_select_best_action_maximizes_ucb1_loss
    (cycles : Nat → RootInfo → RootInfo) (root : RootInfo)
    (h : (mcts_after_search cycles root).children ≠ []) :
    ∃ k, k < (mcts_after_search cycles root).children.length ∧
      select_best_action cycles root =
        ((mcts_after_search cycles root).children.getD k default).parent_action ∧
      ∀ j, j < (mcts_after_search cycles root).children.length →
        ucb1_loss_of_child
            ((mcts_after_search cycles root).children.getD j default)
            (mcts_after_search cycles root).nb_visits ≤
          ucb1_loss_of_child
            ((mcts_after_search cycles root).children.getD k default)
            (mcts_after_search cycles root).nb_visits := by
  set final := mcts_after_search cycles root with hfinal
  set l := final.children.map fun c => ucb1_loss_of_child c final.nb_visits
    with hl
  have hlne : l ≠ [] := by
    rw [hl]
    intro hx
    exact h (List.map_eq_nil_iff.mp hx)
  obtain ⟨hlt, hmax⟩ := npArgmax_spec l hlne 0
  have hlen : l.length = final.children.length := by rw [hl]; simp
  refine ⟨npArgmax l, by rw [← hlen]; exact hlt, rfl, ?_⟩
  intro j hj
  have h1 := hmax j (by rw [hlen]; exact hj)
  rw [getD_map_eq _ _ j hj 0] at h1
  rw [getD_map_eq _ _ (npArgmax l) (by rw [← hlen]; exact hlt) 0] at h1
  exact h1

/-- C6 (witness): with the cycle function abstracted as the identity and a
root with one visited child, the selected action is that child's. -/
theorem C6_select_best_action_maximizes_ucb1_loss_witness :
    ∃ k,
      k < (mcts_after_search (fun _ r => r)
            ⟨1, [⟨0, 1, 1, 5⟩]⟩).children.length ∧
      select_best_action (fun _ r => r) ⟨1, [⟨0, 1, 1, 5⟩]⟩ =
        ((mcts_after_search (fun _ r => r)
            ⟨1, [⟨0, 1, 1, 5⟩]⟩).children.getD k default).parent_action ∧
      ∀ j, j < (mcts_after_search (fun _ r => r)
            ⟨1, [⟨0, 1, 1, 5⟩]⟩).children.length →
        ucb1_loss_of_child
            ((mcts_after_search (fun _ r => r)
                ⟨1, [⟨0, 1, 1, 5⟩]⟩).children.getD j default)
            (mcts_after_search (fun _ r => r) ⟨1, [⟨0, 1, 1, 5⟩]⟩).nb_visits ≤
          ucb1_loss_of_child
            ((mcts_after_search (fun _ r => r)
                ⟨1, [⟨0, 1, 1, 5⟩]⟩).children.getD k default)
            (mcts_after_search (fun _ r => r) ⟨1, [⟨0, 1, 1, 5⟩]⟩).nb_visits :=
  C6_select_best_action_maximizes_ucb1_loss (fun _ r => r) ⟨1, [⟨0, 1, 1, 5⟩]⟩
    (by decide)

/-- `mcts.generate_move`'s search branch constructs `Node(board, player)`:
a fresh root whose counters are zero and whose child list is empty (the
stats view of the constructor). -/
def mcts_root (board : Board) (player : Int) : RootInfo :=
  { nb_visits := 0, children := [] }

/-- `mcts.generate_move`: column 3 immediately when the board equals the
fully empty initial board (`(board == initialize_game_state()).all()`),
otherwise a full search from a fresh root node. -/
noncomputable def mcts_generate_move (cycles : Nat → RootInfo → RootInfo)
    (board : Board) (player : Int) : Int :=
  if board = initialize_game_state then 3
  else select_best_action cycles (mcts_root board player)

/-- C10: on the fully empty initial board the MCTS entry point returns
column 3 for every player and every behaviour of the search cycles (so no
cycle is ever consulted); on any other board it runs the full search from a
fresh root node. -/
theorem C10_generate_move_first_move (cycles : Nat → RootInfo → RootInfo)
    (board : Board) (player : Int) :
    mcts_generate_move cycles initialize_game_state player = 3 ∧
    (board ≠ initialize_game_state →
      mcts_generate_move cycles board player =
        select_best_action cycles (mcts_root board player)) := by
  constructor
  · unfold mcts_generate_move
    rw [if_pos rfl]
  · intro hne
    unfold mcts_generate_move
    rw [if_neg hne]

/-- C10 (witness): a concrete non-empty board triggers the search branch. -/
theorem C10_generate_move_first_move_witness :
    mcts_generate_move (fun _ r => r) cexBoard PLAYER1 =
      select_best_action (fun _ r => r) (mcts_root cexBoard PLAYER1) :=
  (C10_generate_move_first_move (fun _ r => r) cexBoard PLAYER1).2 (by decide)

end C4Game

namespace C4Game

/-- `apply_player_action` acting on a heap of board objects, making the
numpy aliasing explicit: `store` holds every live board object, the caller
passes a reference (index) to its board, and the source's
`final_board = board.copy(); final_board[open_row][action] = player;
return final_board` allocates a fresh object — the new board is appended to
the store and its fresh reference returned, while the entry at `ref` is
left untouched. -/
def apply_player_action_on_store (store : List Board) (ref : Nat)
    (action : Int) (player : Int) : Option (List Board × Nat) :=
  match apply_player_action (store.getD ref []) action player with
  | none => none
  | some final_board => some (store ++ [final_board], store.length)

theorem getD_append_length {α : Type} (l : List α) (x : α) (d : α) :
    (l ++ [x]).getD l.length d = x := by
  induction l with
  | nil => rfl
  | cons a t ih => simpa using ih

/-- C8: a successful `apply_player_action` leaves every board object of the
caller — in particular the input board at `ref` — unchanged, and returns a
fresh reference, never an alias of the input; the fresh object holds
exactly the board the pure function computes. -/
theorem C8_apply_action_input_unchanged (store : List Board) (ref : Nat)
    (action player : Int) (out : List Board × Nat)
    (href : ref < store.length)
    (h : apply_player_action_on_store store ref action player = some out) :
    (∀ i, i < store.length → out.1.getD i [] = store.getD i []) ∧
    out.2 ≠ ref ∧
    apply_player_action (store.getD ref []) action player =
      some (out.1.getD out.2 []) := by
  unfold apply_player_action_on_store at h
  cases happ : apply_player_action (store.getD ref []) action player with
  | none => rw [happ] at h; exact absurd h (by simp)
  | some final_board =>
      rw [happ] at h
      have hout : out = (store ++ [final_board], store.length) := by
        cases h; rfl
      subst hout
      refine ⟨?_, ?_, ?_⟩
      · intro i hi
        exact List.getD_append _ _ _ _ hi
      · intro hx
        omega
      · rw [getD_append_length]

/-- C8 (witness): applying column 0 for PLAYER1 on a one-board store leaves
the input board (slot 0) unchanged and returns the distinct reference 1. -/
theorem C8_apply_action_input_unchanged_witness :
    (([initialize_game_state,
        [[1,0,0,0,0,0,0],[0,0,0,0,0,0,0],[0,0,0,0,0,0,0],
         [0,0,0,0,0,0,0],[0,0,0,0,0,0,0],[0,0,0,0,0,0,0]]] : List Board),
      (1 : Nat)).1.getD 0 [] = [initialize_game_state].getD 0 [] ∧
    (([initialize_game_state,
        [[1,0,0,0,0,0,0],[0,0,0,0,0,0,0],[0,0,0,0,0,0,0],
         [0,0,0,0,0,0,0],[0,0,0,0,0,0,0],[0,0,0,0,0,0,0]]] : List Board),
      (1 : Nat)).2 ≠ 0 :=
  ⟨(C8_apply_action_input_unchanged [initialize_game_state] 0 0 PLAYER1
      ([initialize_game_state,
        [[1,0,0,0,0,0,0],[0,0,0,0,0,0,0],[0,0,0,0,0,0,0],
         [0,0,0,0,0,0,0],[0,0,0,0,0,0,0],[0,0,0,0,0,0,0]]], 1)
      (by decide) (by decide)).1 0 (by decide),
   (C8_apply_action_input_unchanged [initialize_game_state] 0 0 PLAYER1
      ([initialize_game_state,
        [[1,0,0,0,0,0,0],[0,0,0,0,0,0,0],[0,0,0,0,0,0,0],
         [0,0,0,0,0,0,0],[0,0,0,0,0,0,0],[0,0,0,0,0,0,0]]], 1)
      (by decide) (by decide)).2.1⟩

end C4Game

namespace C4Game

/-! ## Board rendering and parsing (`pretty_print_board` / `string_to_board`) -/

def NB_ROWS_PP : Nat := 9

def NB_COLS_PP : Nat := 17

/-- `games_utils.get_position`. -/
def get_position (row col : Nat) : Nat := NB_COLS_PP * row + col

/-- The body of `pretty_print_board`'s double loop for one `(row, col)`:
borders at cols 0 and 15, a line break at col 16, the piece symbol of
`board[6-row][col/2]` on odd cols (empty cells and even cols keep the
initial space). -/
def ppSetCell (board : Board) (pp : List Char) (row col : Nat) : List Char :=
  let position := get_position row col
  if col = 0 ∨ col = 15 then pp.set position '|'
  else if col = 16 then pp.set position '\n'
  else if col % 2 = 1 then
    let index := col / 2
    let elem := cell board (6 - row) index
    if elem = PLAYER1 then pp.set position 'X'
    else if elem = PLAYER2 then pp.set position 'O'
    else pp
  else pp

/-- `games_utils.pretty_print_board`: an array of `17 * 9` spaces; the slice
assignment `pp_board[:18] = "|==============|\n"` replaces the first 18
slots by those 17 characters (shrinking the list by one); the double loop
fills rows 1..6; the slice assignment `pp_board[-33:] = <34-char footer>`
replaces the last 33 slots by the footer. -/
def pretty_print_board (board : Board) : String :=
  let pp0 := List.replicate (NB_COLS_PP * NB_ROWS_PP) ' '
  let pp1 := "|==============|\n".toList ++ pp0.drop (NB_COLS_PP + 1)
  let pp2 := (List.range' 1 (NB_ROWS_PP - 3)).foldl
      (fun pp row =>
        (List.range NB_COLS_PP).foldl (fun pp col => ppSetCell board pp row col) pp)
      pp1
  String.mk (pp2.take (pp2.length - (2 * NB_COLS_PP - 1)) ++
    "|==============|\n|0 1 2 3 4 5 6 |\n".toList)

/-- The body of `string_to_board`'s double loop for one `(row, col)`: on odd
cols, read the character at `get_position(row, col)` and write the matching
piece into `board[6-row][col/2]` (other characters leave the cell as
initialized). -/
def stbSetCell (chars : List Char) (board : Board) (row col : Nat) : Board :=
  if col % 2 = 1 then
    let elem := chars.getD (get_position row col) '?'
    let index := col / 2
    if elem = 'X' then boardSet board (6 - row) index PLAYER1
    else if elem = 'O' then boardSet board (6 - row) index PLAYER2
    else if elem = ' ' then boardSet board (6 - row) index NO_PLAYER
    else board
  else board

/-- `games_utils.string_to_board`: start from the initial board and fill
rows 1..6 from the printed characters (cols 1..16, symbols on odd cols). -/
def string_to_board (pp_board : String) : Board :=
  (List.range' 1 (NB_ROWS_PP - 3)).foldl
    (fun board row =>
      (List.range' 1 (NB_COLS_PP - 1)).foldl
        (fun board col => stbSetCell pp_board.toList board row col)
        board)
    initialize_game_state

end C4Game

namespace C4Game

/-- The character `pretty_print_board` leaves in a cell slot holding `x`:
`'X'` for PLAYER1, `'O'` for PLAYER2, the initial space otherwise. -/
def cellCharOf (x : Int) : Char :=
  if x = PLAYER1 then 'X' else if x = PLAYER2 then 'O' else ' '

/-- The 17 characters of printed row `row` (showing board row `6 - row`). -/
def rowChars (board : Board) (row : Nat) : List Char :=
  ['|', cellCharOf (cell board (6 - row) 0), ' ', cellCharOf (cell board (6 - row) 1), ' ',
   cellCharOf (cell board (6 - row) 2), ' ', cellCharOf (cell board (6 - row) 3), ' ',
   cellCharOf (cell board (6 - row) 4), ' ', cellCharOf (cell board (6 - row) 5), ' ',
   cellCharOf (cell board (6 - row) 6), ' ', '|', '\n']

/-- The full output of `pretty_print_board`: top frame, six printed rows
(board rows 5 down to 0), bottom frame and column labels. -/
def ppRendered (board : Board) : List Char :=
  "|==============|\n".toList ++
    (rowChars board 1 ++ (rowChars board 2 ++ (rowChars board 3 ++
      (rowChars board 4 ++ (rowChars board 5 ++ (rowChars board 6 ++
        "|==============|\n|0 1 2 3 4 5 6 |\n".toList))))))

theorem set_mid {α : Type} (A t B : List α) (n : Nat) (v : α) (h : n < t.length) :
    (A ++ (t ++ B)).set (A.length + n) v = A ++ (t.set n v ++ B) := by
  rw [List.set_append_right _ _ (Nat.le_add_right _ _), Nat.add_sub_cancel_left,
    List.set_append_left _ _ h]

theorem set_getD_self {α : Type} (l : List α) :
    ∀ (n : Nat) (d : α), n < l.length → l.set n (l.getD n d) = l := by
  induction l with
  | nil => intro n d h; simp at h
  | cons a t ih =>
      intro n d h
      cases n with
      | zero => rfl
      | succ m =>
          simp only [List.set_cons_succ, List.getD_cons_succ]
          rw [ih m d (by simpa using h)]

theorem ppSetCell_border {A t B : List Char} (board : Board) (row col : Nat)
    (h1 : col = 0 ∨ col = 15) (hA : A.length = NB_COLS_PP * row)
    (hlt : col < t.length) :
    ppSetCell board (A ++ (t ++ B)) row col = A ++ (t.set col '|' ++ B) := by
  simp only [ppSetCell, get_position]
  rw [if_pos h1, ← hA, set_mid _ _ _ _ _ hlt]

theorem ppSetCell_newline {A t B : List Char} (board : Board) (row : Nat)
    (hA : A.length = NB_COLS_PP * row) (hlt : 16 < t.length) :
    ppSetCell board (A ++ (t ++ B)) row 16 = A ++ (t.set 16 '\n' ++ B) := by
  simp only [ppSetCell, get_position]
  rw [if_neg (by decide), if_pos trivial, ← hA, set_mid _ _ _ _ _ hlt]

theorem ppSetCell_even (board : Board) (pp : List Char) (row col : Nat)
    (h1 : ¬(col = 0 ∨ col = 15)) (h2 : col ≠ 16) (h3 : col % 2 ≠ 1) :
    ppSetCell board pp row col = pp := by
  simp only [ppSetCell]
  rw [if_neg h1, if_neg h2, if_neg h3]

theorem ppSetCell_piece {A t B : List Char} (board : Board) (row col : Nat)
    (h1 : ¬(col = 0 ∨ col = 15)) (h2 : col ≠ 16) (h3 : col % 2 = 1)
    (hA : A.length = NB_COLS_PP * row)
    (hlt : col < t.length) (hsp : t.getD col '?' = ' ') :
    ppSetCell board (A ++ (t ++ B)) row col =
      A ++ (t.set col (cellCharOf (cell board (6 - row) (col / 2))) ++ B) := by
  simp only [ppSetCell, get_position]
  rw [if_neg h1, if_neg h2, if_pos h3, ← hA]
  by_cases e1 : cell board (6 - row) (col / 2) = PLAYER1
  · rw [if_pos e1, set_mid _ _ _ _ _ hlt, e1]
    rfl
  · by_cases e2 : cell board (6 - row) (col / 2) = PLAYER2
    · rw [if_neg e1, if_pos e2, set_mid _ _ _ _ _ hlt, e2]
      rfl
    · rw [if_neg e1, if_neg e2]
      have hc : cellCharOf (cell board (6 - row) (col / 2)) = ' ' := by
        simp [cellCharOf, e1, e2]
      rw [hc, show t.set col ' ' = t from by
        rw [← hsp]; exact set_getD_self t col '?' hlt]

/-- The inner column loop of `pretty_print_board` on printed row `row`: on a
buffer whose slots for this row still hold spaces, it writes exactly the
17 characters of `rowChars`. -/
theorem ppRowFold {A B : List Char} (board : Board) (row : Nat)
    (hA : A.length = NB_COLS_PP * row) :
    (List.range NB_COLS_PP).foldl (fun pp col => ppSetCell board pp row col)
      (A ++ (List.replicate 17 ' ' ++ B)) = A ++ (rowChars board row ++ B) := by
  rw [show List.range NB_COLS_PP =
    [0, 1, 2, 3, 4, 5, 6, 7, 8, 9, 10, 11, 12, 13, 14, 15, 16] from rfl]
  simp only [List.foldl_cons, List.foldl_nil]
  rw [ppSetCell_border board row 0 (by decide) hA]
  rw [ppSetCell_piece board row 1 (by decide) (by decide) (by decide) hA]
  rw [ppSetCell_even board _ row 2 (by decide) (by decide) (by decide)]
  rw [ppSetCell_piece board row 3 (by decide) (by decide) (by decide) hA]
  rw [ppSetCell_even board _ row 4 (by decide) (by decide) (by decide)]
  rw [ppSetCell_piece board row 5 (by decide) (by decide) (by decide) hA]
  rw [ppSetCell_even board _ row 6 (by decide) (by decide) (by decide)]
  rw [ppSetCell_piece board row 7 (by decide) (by decide) (by decide) hA]
  rw [ppSetCell_even board _ row 8 (by decide) (by decide) (by decide)]
  rw [ppSetCell_piece board row 9 (by decide) (by decide) (by decide) hA]
  rw [ppSetCell_even board _ row 10 (by decide) (by decide) (by decide)]
  rw [ppSetCell_piece board row 11 (by decide) (by decide) (by decide) hA]
  rw [ppSetCell_even board _ row 12 (by decide) (by decide) (by decide)]
  rw [ppSetCell_piece board row 13 (by decide) (by decide) (by decide) hA]
  rw [ppSetCell_even board _ row 14 (by decide) (by decide) (by decide)]
  rw [ppSetCell_border board row 15 (by decide) hA]
  rw [ppSetCell_newline board row hA]
  · exact congrArg (fun x => A ++ x) (congrArg (fun x => x ++ B) rfl)
  all_goals first | rfl | decide | simp [List.length_set]

end C4Game

namespace C4Game

theorem take_footer (U V : List Char) (hV : V.length = 2 * NB_COLS_PP - 1) :
    (U ++ V).take ((U ++ V).length - (2 * NB_COLS_PP - 1)) = U := by
  rw [List.length_append, hV, Nat.add_sub_cancel]
  exact List.take_left U V

set_option maxHeartbeats 2000000 in
/-- `pretty_print_board` produces exactly the frame plus the six rendered
rows: the slice trick at the top (18 slots replaced by 17 characters)
re-aligns the row offsets, and the final slice replaces the trailing 33
spaces by the 34-character footer. -/
theorem pretty_print_board_rendered (board : Board) :
    pretty_print_board board = String.mk (ppRendered board) := by
  simp only [pretty_print_board]
  rw [show List.range' 1 (NB_ROWS_PP - 3) = [1, 2, 3, 4, 5, 6] from rfl]
  simp only [List.foldl_cons, List.foldl_nil]
  rw [show ("|==============|\n".toList ++
      (List.replicate (NB_COLS_PP * NB_ROWS_PP) ' ').drop (NB_COLS_PP + 1) : List Char) =
    "|==============|\n".toList ++ (List.replicate 17 ' ' ++ List.replicate 118 ' ')
    from by rfl]
  rw [ppRowFold board 1]
  rw [show (List.replicate 118 ' ' : List Char) =
    List.replicate 17 ' ' ++ List.replicate 101 ' ' from by rw [← List.replicate_add]]
  rw [← List.append_assoc]
  rw [ppRowFold board 2]
  rw [show (List.replicate 101 ' ' : List Char) =
    List.replicate 17 ' ' ++ List.replicate 84 ' ' from by rw [← List.replicate_add]]
  rw [← List.append_assoc]
  rw [ppRowFold board 3]
  rw [show (List.replicate 84 ' ' : List Char) =
    List.replicate 17 ' ' ++ List.replicate 67 ' ' from by rw [← List.replicate_add]]
  rw [← List.append_assoc]
  rw [ppRowFold board 4]
  rw [show (List.replicate 67 ' ' : List Char) =
    List.replicate 17 ' ' ++ List.replicate 50 ' ' from by rw [← List.replicate_add]]
  rw [← List.append_assoc]
  rw [ppRowFold board 5]
  rw [show (List.replicate 50 ' ' : List Char) =
    List.replicate 17 ' ' ++ List.replicate 33 ' ' from by rw [← List.replicate_add]]
  rw [← List.append_assoc]
  rw [ppRowFold board 6]
  rw [← List.append_assoc]
  rw [take_footer]
  case hV => rfl
  all_goals first | rfl | simp [ppRendered, rowChars, NB_COLS_PP, List.append_assoc]

end C4Game

namespace C4Game

theorem stbSetCell_even2 (chars : List Char) (b : Board) (row : Nat) :
    stbSetCell chars b row 2 = b := rfl

theorem stbSetCell_even4 (chars : List Char) (b : Board) (row : Nat) :
    stbSetCell chars b row 4 = b := rfl

theorem stbSetCell_even6 (chars : List Char) (b : Board) (row : Nat) :
    stbSetCell chars b row 6 = b := rfl

theorem stbSetCell_even8 (chars : List Char) (b : Board) (row : Nat) :
    stbSetCell chars b row 8 = b := rfl

theorem stbSetCell_even10 (chars : List Char) (b : Board) (row : Nat) :
    stbSetCell chars b row 10 = b := rfl

theorem stbSetCell_even12 (chars : List Char) (b : Board) (row : Nat) :
    stbSetCell chars b row 12 = b := rfl

theorem stbSetCell_even14 (chars : List Char) (b : Board) (row : Nat) :
    stbSetCell chars b row 14 = b := rfl

theorem stbSetCell_even16 (chars : List Char) (b : Board) (row : Nat) :
    stbSetCell chars b row 16 = b := rfl

theorem stbSetCell_odd_eq (chars : List Char) (b : Board) (row col : Nat)
    (hodd : col % 2 = 1) :
    stbSetCell chars b row col =
      (if chars.getD (get_position row col) '?' = 'X' then
        boardSet b (6 - row) (col / 2) PLAYER1
       else if chars.getD (get_position row col) '?' = 'O' then
        boardSet b (6 - row) (col / 2) PLAYER2
       else if chars.getD (get_position row col) '?' = ' ' then
        boardSet b (6 - row) (col / 2) NO_PLAYER
       else b) := by
  simp only [stbSetCell]
  rw [if_pos hodd]

theorem stbSetCell_pipe (chars : List Char) (row col : Nat) {b : Board}
    (hodd : col % 2 = 1) (he : chars.getD (get_position row col) '?' = '|') :
    stbSetCell chars b row col = b := by
  rw [stbSetCell_odd_eq chars b row col hodd, he]
  rfl

theorem stbSetCell_piece_eq (chars : List Char) (row col : Nat) (x : Int) {b : Board}
    (hodd : col % 2 = 1) (hx : x = 0 ∨ x = 1 ∨ x = 2)
    (he : chars.getD (get_position row col) '?' = cellCharOf x) :
    stbSetCell chars b row col = boardSet b (6 - row) (col / 2) x := by
  rw [stbSetCell_odd_eq chars b row col hodd, he]
  rcases hx with rfl | rfl | rfl <;> rfl

theorem validBoard_row_length (board : Board) (h : validBoard board) (r : Nat)
    (hr : r < 6) : (board.getD r []).length = 7 := by
  have hrb : r < board.length := by rw [h.1]; exact hr
  have hrow : board.getD r [] ∈ board := by
    rw [List.getD_eq_getElem _ _ hrb]
    exact List.getElem_mem hrb
  exact (h.2 _ hrow).1

theorem validBoard_cell (board : Board) (h : validBoard board) (r c : Nat) :
    cell board r c = 0 ∨ cell board r c = 1 ∨ cell board r c = 2 := by
  unfold cell
  by_cases hr : r < board.length
  · have hrow : board.getD r [] ∈ board := by
      rw [List.getD_eq_getElem _ _ hr]
      exact List.getElem_mem hr
    obtain ⟨-, hcells⟩ := h.2 _ hrow
    by_cases hc : c < (board.getD r []).length
    · refine hcells _ ?_
      rw [List.getD_eq_getElem _ _ hc]
      exact List.getElem_mem hc
    · exact Or.inl (List.getD_eq_default _ _ (le_of_not_lt hc))
  · have : board.getD r [] = [] := List.getD_eq_default _ _ (le_of_not_lt hr)
    rw [this]
    exact Or.inl rfl

theorem board_ext (X Y : Board) (hl : X.length = Y.length)
    (hrows : ∀ r, r < X.length → (X.getD r []).length = (Y.getD r []).length ∧
      ∀ c, c < (X.getD r []).length →
        (X.getD r []).getD c 0 = (Y.getD r []).getD c 0) :
    X = Y := by
  apply List.ext_getElem hl
  intro r h1 h2
  obtain ⟨hlen, hcell⟩ := hrows r h1
  rw [List.getD_eq_getElem _ _ h1, List.getD_eq_getElem _ _ h2] at hlen
  apply List.ext_getElem hlen
  intro c hc1 hc2
  have h3 := hcell c (by rw [List.getD_eq_getElem _ _ h1]; exact hc1)
  rw [List.getD_eq_getElem _ _ h1, List.getD_eq_getElem _ _ h2] at h3
  rw [List.getD_eq_getElem _ _ hc1, List.getD_eq_getElem _ _ hc2] at h3
  exact h3

end C4Game

namespace C4Game

set_option maxHeartbeats 2000000 in
/-- Parsing the rendered board gives back every cell: each odd printed
column of each printed row writes the original cell value (via
`cellCharOf`), the borders and spacer columns write nothing, and the final
board agrees with the original on all 42 cells. -/
theorem string_to_board_pretty_print (board : Board) (h : validBoard board) :
    string_to_board (pretty_print_board board) = board := by
  rw [pretty_print_board_rendered]
  simp only [string_to_board]
  rw [show List.range' 1 (NB_ROWS_PP - 3) = [1, 2, 3, 4, 5, 6] from rfl]
  simp only [List.foldl_cons, List.foldl_nil]
  rw [show List.range' 1 (NB_COLS_PP - 1) =
    [1, 2, 3, 4, 5, 6, 7, 8, 9, 10, 11, 12, 13, 14, 15, 16] from rfl]
  simp only [List.foldl_cons, List.foldl_nil]
  rw [show (String.mk (ppRendered board)).toList = ppRendered board from rfl]
  simp only [stbSetCell_even2, stbSetCell_even4, stbSetCell_even6, stbSetCell_even8,
    stbSetCell_even10, stbSetCell_even12, stbSetCell_even14, stbSetCell_even16]
  rw [stbSetCell_pipe (ppRendered board) 1 15 (by decide) (by rfl)]
  rw [stbSetCell_piece_eq (ppRendered board) 1 1 (cell board (6 - 1) (1 / 2)) (by decide)
    (validBoard_cell board h (6 - 1) (1 / 2)) (by rfl)]
  rw [stbSetCell_piece_eq (ppRendered board) 1 3 (cell board (6 - 1) (3 / 2)) (by decide)
    (validBoard_cell board h (6 - 1) (3 / 2)) (by rfl)]
  rw [stbSetCell_piece_eq (ppRendered board) 1 5 (cell board (6 - 1) (5 / 2)) (by decide)
    (validBoard_cell board h (6 - 1) (5 / 2)) (by rfl)]
  rw [stbSetCell_piece_eq (ppRendered board) 1 7 (cell board (6 - 1) (7 / 2)) (by decide)
    (validBoard_cell board h (6 - 1) (7 / 2)) (by rfl)]
  rw [stbSetCell_piece_eq (ppRendered board) 1 9 (cell board (6 - 1) (9 / 2)) (by decide)
    (validBoard_cell board h (6 - 1) (9 / 2)) (by rfl)]
  rw [stbSetCell_piece_eq (ppRendered board) 1 11 (cell board (6 - 1) (11 / 2)) (by decide)
    (validBoard_cell board h (6 - 1) (11 / 2)) (by rfl)]
  rw [stbSetCell_piece_eq (ppRendered board) 1 13 (cell board (6 - 1) (13 / 2)) (by decide)
    (validBoard_cell board h (6 - 1) (13 / 2)) (by rfl)]
  rw [stbSetCell_pipe (ppRendered board) 2 15 (by decide) (by rfl)]
  rw [stbSetCell_piece_eq (ppRendered board) 2 1 (cell board (6 - 2) (1 / 2)) (by decide)
    (validBoard_cell board h (6 - 2) (1 / 2)) (by rfl)]
  rw [stbSetCell_piece_eq (ppRendered board) 2 3 (cell board (6 - 2) (3 / 2)) (by decide)
    (validBoard_cell board h (6 - 2) (3 / 2)) (by rfl)]
  rw [stbSetCell_piece_eq (ppRendered board) 2 5 (cell board (6 - 2) (5 / 2)) (by decide)
    (validBoard_cell board h (6 - 2) (5 / 2)) (by rfl)]
  rw [stbSetCell_piece_eq (ppRendered board) 2 7 (cell board (6 - 2) (7 / 2)) (by decide)
    (validBoard_cell board h (6 - 2) (7 / 2)) (by rfl)]
  rw [stbSetCell_piece_eq (ppRendered board) 2 9 (cell board (6 - 2) (9 / 2)) (by decide)
    (validBoard_cell board h (6 - 2) (9 / 2)) (by rfl)]
  rw [stbSetCell_piece_eq (ppRendered board) 2 11 (cell board (6 - 2) (11 / 2)) (by decide)
    (validBoard_cell board h (6 - 2) (11 / 2)) (by rfl)]
  rw [stbSetCell_piece_eq (ppRendered board) 2 13 (cell board (6 - 2) (13 / 2)) (by decide)
    (validBoard_cell board h (6 - 2) (13 / 2)) (by rfl)]
  rw [stbSetCell_pipe (ppRendered board) 3 15 (by decide) (by rfl)]
  rw [stbSetCell_piece_eq (ppRendered board) 3 1 (cell board (6 - 3) (1 / 2)) (by decide)
    (validBoard_cell board h (6 - 3) (1 / 2)) (by rfl)]
  rw [stbSetCell_piece_eq (ppRendered board) 3 3 (cell board (6 - 3) (3 / 2)) (by decide)
    (validBoard_cell board h (6 - 3) (3 / 2)) (by rfl)]
  rw [stbSetCell_piece_eq (ppRendered board) 3 5 (cell board (6 - 3) (5 / 2)) (by decide)
    (validBoard_cell board h (6 - 3) (5 / 2)) (by rfl)]
  rw [stbSetCell_piece_eq (ppRendered board) 3 7 (cell board (6 - 3) (7 / 2)) (by decide)
    (validBoard_cell board h (6 - 3) (7 / 2)) (by rfl)]
  rw [stbSetCell_piece_eq (ppRendered board) 3 9 (cell board (6 - 3) (9 / 2)) (by decide)
    (validBoard_cell board h (6 - 3) (9 / 2)) (by rfl)]
  rw [stbSetCell_piece_eq (ppRendered board) 3 11 (cell board (6 - 3) (11 / 2)) (by decide)
    (validBoard_cell board h (6 - 3) (11 / 2)) (by rfl)]
  rw [stbSetCell_piece_eq (ppRendered board) 3 13 (cell board (6 - 3) (13 / 2)) (by decide)
    (validBoard_cell board h (6 - 3) (13 / 2)) (by rfl)]
  rw [stbSetCell_pipe (ppRendered board) 4 15 (by decide) (by rfl)]
  rw [stbSetCell_piece_eq (ppRendered board) 4 1 (cell board (6 - 4) (1 / 2)) (by decide)
    (validBoard_cell board h (6 - 4) (1 / 2)) (by rfl)]
  rw [stbSetCell_piece_eq (ppRendered board) 4 3 (cell board (6 - 4) (3 / 2)) (by decide)
    (validBoard_cell board h (6 - 4) (3 / 2)) (by rfl)]
  rw [stbSetCell_piece_eq (ppRendered board) 4 5 (cell board (6 - 4) (5 / 2)) (by decide)
    (validBoard_cell board h (6 - 4) (5 / 2)) (by rfl)]
  rw [stbSetCell_piece_eq (ppRendered board) 4 7 (cell board (6 - 4) (7 / 2)) (by decide)
    (validBoard_cell board h (6 - 4) (7 / 2)) (by rfl)]
  rw [stbSetCell_piece_eq (ppRendered board) 4 9 (cell board (6 - 4) (9 / 2)) (by decide)
    (validBoard_cell board h (6 - 4) (9 / 2)) (by rfl)]
  rw [stbSetCell_piece_eq (ppRendered board) 4 11 (cell board (6 - 4) (11 / 2)) (by decide)
    (validBoard_cell board h (6 - 4) (11 / 2)) (by rfl)]
  rw [stbSetCell_piece_eq (ppRendered board) 4 13 (cell board (6 - 4) (13 / 2)) (by decide)
    (validBoard_cell board h (6 - 4) (13 / 2)) (by rfl)]
  rw [stbSetCell_pipe (ppRendered board) 5 15 (by decide) (by rfl)]
  rw [stbSetCell_piece_eq (ppRendered board) 5 1 (cell board (6 - 5) (1 / 2)) (by decide)
    (validBoard_cell board h (6 - 5) (1 / 2)) (by rfl)]
  rw [stbSetCell_piece_eq (ppRendered board) 5 3 (cell board (6 - 5) (3 / 2)) (by decide)
    (validBoard_cell board h (6 - 5) (3 / 2)) (by rfl)]
  rw [stbSetCell_piece_eq (ppRendered board) 5 5 (cell board (6 - 5) (5 / 2)) (by decide)
    (validBoard_cell board h (6 - 5) (5 / 2)) (by rfl)]
  rw [stbSetCell_piece_eq (ppRendered board) 5 7 (cell board (6 - 5) (7 / 2)) (by decide)
    (validBoard_cell board h (6 - 5) (7 / 2)) (by rfl)]
  rw [stbSetCell_piece_eq (ppRendered board) 5 9 (cell board (6 - 5) (9 / 2)) (by decide)
    (validBoard_cell board h (6 - 5) (9 / 2)) (by rfl)]
  rw [stbSetCell_piece_eq (ppRendered board) 5 11 (cell board (6 - 5) (11 / 2)) (by decide)
    (validBoard_cell board h (6 - 5) (11 / 2)) (by rfl)]
  rw [stbSetCell_piece_eq (ppRendered board) 5 13 (cell board (6 - 5) (13 / 2)) (by decide)
    (validBoard_cell board h (6 - 5) (13 / 2)) (by rfl)]
  rw [stbSetCell_pipe (ppRendered board) 6 15 (by decide) (by rfl)]
  rw [stbSetCell_piece_eq (ppRendered board) 6 1 (cell board (6 - 6) (1 / 2)) (by decide)
    (validBoard_cell board h (6 - 6) (1 / 2)) (by rfl)]
  rw [stbSetCell_piece_eq (ppRendered board) 6 3 (cell board (6 - 6) (3 / 2)) (by decide)
    (validBoard_cell board h (6 - 6) (3 / 2)) (by rfl)]
  rw [stbSetCell_piece_eq (ppRendered board) 6 5 (cell board (6 - 6) (5 / 2)) (by decide)
    (validBoard_cell board h (6 - 6) (5 / 2)) (by rfl)]
  rw [stbSetCell_piece_eq (ppRendered board) 6 7 (cell board (6 - 6) (7 / 2)) (by decide)
    (validBoard_cell board h (6 - 6) (7 / 2)) (by rfl)]
  rw [stbSetCell_piece_eq (ppRendered board) 6 9 (cell board (6 - 6) (9 / 2)) (by decide)
    (validBoard_cell board h (6 - 6) (9 / 2)) (by rfl)]
  rw [stbSetCell_piece_eq (ppRendered board) 6 11 (cell board (6 - 6) (11 / 2)) (by decide)
    (validBoard_cell board h (6 - 6) (11 / 2)) (by rfl)]
  rw [stbSetCell_piece_eq (ppRendered board) 6 13 (cell board (6 - 6) (13 / 2)) (by decide)
    (validBoard_cell board h (6 - 6) (13 / 2)) (by rfl)]
  apply board_ext
  · rw [h.1]
    rfl
  · intro r hr
    have hr6 : r < 6 := hr
    clear hr
    interval_cases r <;>
      refine ⟨by rw [validBoard_row_length board h _ (by decide)]; rfl, fun c hc => ?_⟩ <;>
      · have hc7 : c < 7 := hc
        clear hc
        interval_cases c <;> rfl

end C4Game

namespace C4Game

theorem apply_player_action_some (b : Board) (action p : Int) (b' : Board)
    (happ : apply_player_action b action p = some b') :
    ∃ r c, r < 6 ∧ b' = boardSet b r c p := by
  simp only [apply_player_action] at happ
  split_ifs at happ
  all_goals try exact absurd happ (by simp)
  all_goals (
    split at happ
    next => exact absurd happ (by simp)
    next open_row heq =>
      refine ⟨open_row, _, ?_, (Option.some.inj happ).symm⟩
      have hmem := List.min?_mem (fun a b => min_choice a b) heq
      rw [List.mem_filter] at hmem
      have h6 := List.mem_range.mp hmem.1
      simpa [NB_ROWS] using h6)

theorem mem_modify {α : Type} (f : α → α) (r : Nat) (l : List α) (x : α)
    (hx : x ∈ l.modify f r) : x ∈ l ∨ ∃ a, a ∈ l ∧ x = f a := by
  induction l generalizing r with
  | nil => simp at hx
  | cons a t ih =>
      cases r with
      | zero =>
          rw [List.modify_zero_cons] at hx
          rcases List.mem_cons.mp hx with rfl | hx2
          · exact Or.inr ⟨a, List.mem_cons_self a t, rfl⟩
          · exact Or.inl (List.mem_cons_of_mem _ hx2)
      | succ m =>
          rw [List.modify_succ_cons] at hx
          rcases List.mem_cons.mp hx with rfl | hx2
          · exact Or.inl (List.mem_cons_self _ _)
          · rcases ih m hx2 with h | ⟨y, hy, hxy⟩
            · exact Or.inl (List.mem_cons_of_mem _ h)
            · exact Or.inr ⟨y, List.mem_cons_of_mem _ hy, hxy⟩

theorem boardSet_valid (b : Board) (r c : Nat) (p : Int) (hv : validBoard b)
    (hp : p = 0 ∨ p = 1 ∨ p = 2) : validBoard (boardSet b r c p) := by
  obtain ⟨hlen, hrows⟩ := hv
  constructor
  · rw [boardSet, List.length_modify]
    exact hlen
  · intro row hrow
    rw [boardSet] at hrow
    rcases mem_modify _ _ _ _ hrow with hmem | ⟨a, ha, rfl⟩
    · exact hrows row hmem
    · obtain ⟨hl7, hcells⟩ := hrows a ha
      refine ⟨by rw [List.length_set]; exact hl7, ?_⟩
      intro x hx
      rcases List.mem_or_eq_of_mem_set hx with hxm | rfl
      · exact hcells x hxm
      · exact hp

theorem reachable_valid_player (b : Board) (p : Int) (h : Reachable b p) :
    validBoard b ∧ (p = PLAYER1 ∨ p = PLAYER2) := by
  induction h with
  | init => exact ⟨by decide, Or.inl rfl⟩
  | step b0 p0 a b' hreach hes1 hes2 hmem happ ih =>
      obtain ⟨hv, hp⟩ := ih
      obtain ⟨r, c, hr, rfl⟩ := apply_player_action_some b0 (a : Int) p0 b' happ
      constructor
      · refine boardSet_valid b0 r c p0 hv ?_
        rcases hp with rfl | rfl
        · exact Or.inr (Or.inl rfl)
        · exact Or.inr (Or.inr rfl)
      · rcases hp with rfl | rfl
        · exact (by decide)
        · exact (by decide)

/-- C9: rendering any board reachable in legal play with
`pretty_print_board` and parsing the string back with `string_to_board`
returns a board equal to the original. -/
theorem C9_render_parse_round_trip (board : Board) (p : Int)
    (h : Reachable board p) :
    string_to_board (pretty_print_board board) = board :=
  string_to_board_pretty_print board (reachable_valid_player board p h).1

/-- C9 (witness): the empty initial board round-trips. -/
theorem C9_render_parse_round_trip_witness :
    string_to_board (pretty_print_board initialize_game_state) =
      initialize_game_state :=
  C9_render_parse_round_trip initialize_game_state PLAYER1 Reachable.init

end C4Game
